import Mathlib

/-!
Shallow embedding of `schit.py` (Schit - Stores Cryptographic Hashes In Tables),
a file-integrity monitor.  The SQLite table `file_data` is modelled as a list of
records in rowid order; the filesystem is modelled as a pair of partial
functions (directory trees for `os.walk`, byte contents for `open`/read).
File hashing is modelled by a full implementation of SHA-1 with lowercase
hexadecimal digest, mirroring Python's `hashlib.sha1().hexdigest()`.
-/

/-! ## SHA-1 (modelling `hashlib.sha1().hexdigest()`) -/

/-- Modulus for 32-bit machine words. -/
def w32 : Nat := 4294967296

/-- Left rotation of a 32-bit word by `n` bits. -/
def rotl (n x : Nat) : Nat := ((x <<< n) % w32) ||| (x >>> (32 - n))

/-- SHA-1 round function, depending on the round index `t`. -/
def sha1F (t b c d : Nat) : Nat :=
  if t < 20 then (b &&& c) ||| ((b ^^^ (w32 - 1)) &&& d)
  else if t < 40 then b ^^^ c ^^^ d
  else if t < 60 then (b &&& c) ||| (b &&& d) ||| (c &&& d)
  else b ^^^ c ^^^ d

/-- SHA-1 round constants. -/
def sha1K (t : Nat) : Nat :=
  if t < 20 then 1518500249
  else if t < 40 then 1859775393
  else if t < 60 then 2400959708
  else 3395469782

/-- Group a byte list into big-endian 32-bit words. -/
def bytesToWords : List Nat → List Nat
  | b0 :: b1 :: b2 :: b3 :: rest =>
      (((b0 * 256 + b1) * 256 + b2) * 256 + b3) :: bytesToWords rest
  | _ => []

/-- Extend the 16-word message block to 80 schedule words (fuelled loop). -/
def sha1Extend : Nat → List Nat → List Nat
  | 0, ws => ws
  | fuel + 1, ws =>
      if ws.length ≥ 80 then ws
      else
        sha1Extend fuel (ws ++ [rotl 1
          ((ws.getD (ws.length - 3) 0) ^^^ (ws.getD (ws.length - 8) 0) ^^^
           (ws.getD (ws.length - 14) 0) ^^^ (ws.getD (ws.length - 16) 0))])

/-- One SHA-1 round on the five-word state. -/
def sha1Round (w : List Nat) (st : Nat × Nat × Nat × Nat × Nat) (t : Nat) :
    Nat × Nat × Nat × Nat × Nat :=
  ((rotl 5 st.1 + sha1F t st.2.1 st.2.2.1 st.2.2.2.1 + st.2.2.2.2 +
      sha1K t + w.getD t 0) % w32,
   st.1, rotl 30 st.2.1, st.2.2.1, st.2.2.2.1)

/-- Process one 64-byte block. -/
def sha1Block (h : Nat × Nat × Nat × Nat × Nat) (block : List Nat) :
    Nat × Nat × Nat × Nat × Nat :=
  let w := sha1Extend 64 (bytesToWords block)
  let f := (List.range 80).foldl (sha1Round w) h
  ((h.1 + f.1) % w32, (h.2.1 + f.2.1) % w32, (h.2.2.1 + f.2.2.1) % w32,
   (h.2.2.2.1 + f.2.2.2.1) % w32, (h.2.2.2.2 + f.2.2.2.2) % w32)

/-- Big-endian 8-byte encoding of the bit length. -/
def lenBytes (n : Nat) : List Nat :=
  [n / 72057594037927936 % 256, n / 281474976710656 % 256,
   n / 1099511627776 % 256, n / 4294967296 % 256,
   n / 16777216 % 256, n / 65536 % 256, n / 256 % 256, n % 256]

/-- SHA-1 padding: append 0x80, zeros to 56 mod 64, then the bit length. -/
def sha1Pad (ms : List Nat) : List Nat :=
  let ml := ms.length
  ms ++ [128] ++ List.replicate ((64 + 56 - ((ml + 1) % 64)) % 64) 0 ++
    lenBytes (ml * 8)

/-- Split a byte list into 64-byte chunks (fuelled loop). -/
def chunks64 : Nat → List Nat → List (List Nat)
  | 0, _ => []
  | _, [] => []
  | fuel + 1, b :: bs => ((b :: bs).take 64) :: chunks64 fuel ((b :: bs).drop 64)

/-- SHA-1 digest of a byte list, as five 32-bit words. -/
def sha1Words (ms : List Nat) : Nat × Nat × Nat × Nat × Nat :=
  let padded := sha1Pad ms
  (chunks64 padded.length padded).foldl sha1Block
    (1732584193, 4023233417, 2562383102, 271733878, 3285377520)

/-- Lowercase hexadecimal digit for a value below 16. -/
def hexDigitAux (m : Nat) : Char :=
  if m < 10 then Char.ofNat (48 + m) else Char.ofNat (87 + m)

/-- Lowercase hexadecimal digit of `n % 16`. -/
def hexDigit (n : Nat) : Char := hexDigitAux (n % 16)

/-- Big-endian hexadecimal rendering of `n` with exactly `k` digits. -/
def toHexPad : Nat → Nat → List Char
  | 0, _ => []
  | k + 1, n => toHexPad k (n / 16) ++ [hexDigit n]

/-- Lowercase hexadecimal SHA-1 digest of a byte list: the model of
`hashlib.sha1().hexdigest()` over the file's bytes. -/
def sha1hex (ms : List Nat) : String :=
  let w := sha1Words ms
  String.mk (toHexPad 8 w.1 ++ toHexPad 8 w.2.1 ++ toHexPad 8 w.2.2.1 ++
    toHexPad 8 w.2.2.2.1 ++ toHexPad 8 w.2.2.2.2)

/-! ## Data model -/

/-- One row of the SQLite table `file_data`. -/
structure Record where
  file_location : String
  original_hash : String
  new_hash : String
  is_modified : Bool
deriving DecidableEq, Repr

/-- The table `file_data` in rowid (insertion) order. -/
abbrev Store := List Record

mutual
/-- A directory's contents: named subdirectories and file names. -/
inductive DirTree where
  | node (subdirs : DirList) (files : List String)
/-- A listing of named subdirectories. -/
inductive DirList where
  | nil
  | cons (name : String) (t : DirTree) (rest : DirList)
end

/-- The names in a subdirectory listing, in order (the `dirs` list that
`os.walk` hands to the loop body). -/
def DirList.names : DirList → List String
  | .nil => []
  | .cons n _ rest => n :: DirList.names rest

/-- The configuration supplied by the XML config file: the four path sets. -/
structure MonitorConfig where
  include_dirs : List String
  include_files : List String
  exclude_dirs : List String
  exclude_files : List String
deriving Repr

/-- The filesystem: `root d` is the directory tree under `d` when `os.walk d`
finds it (a missing directory walks to nothing), and `content p` is the byte
content of file `p` when it can be opened and read (`none` models any
`open`/read exception). -/
structure Filesys where
  root : String → Option DirTree
  content : String → Option (List Nat)

/-! ## FileSetResolver: `get_config_files` -/

/-- Model of `os.path.join(a, b)` for the paths involved. -/
def joinPath (a b : String) : String := a ++ "/" ++ b

/-- Model of Python's `list.remove`: drop the first occurrence of `x`. -/
def pythonRemove (x : String) : List String → List String
  | [] => []
  | y :: ys => if y = x then ys else y :: pythonRemove x ys

/-- The loop `for dir_name in dirs: if join(dirpath, dir_name) in
exclude_dirs: dirs.remove(dir_name)` from `get_config_files`, modelled at the
level of Python's list iterator: an index that advances by one each step over
the list being mutated (fuelled; `fuel = dirs.length` always suffices since
the list never grows). -/
def pruneIter (excl : List String) (dirpath : String) :
    Nat → List String → Nat → List String
  | 0, dirs, _ => dirs
  | fuel + 1, dirs, i =>
      match dirs[i]? with
      | none => dirs
      | some d =>
          if joinPath dirpath d ∈ excl then
            pruneIter excl dirpath fuel (pythonRemove d dirs) (i + 1)
          else
            pruneIter excl dirpath fuel dirs (i + 1)

/-- Run the exclusion pruning loop on a directory listing. -/
def pruneRun (excl : List String) (dirpath : String) (dirs : List String) :
    List String :=
  pruneIter excl dirpath dirs.length dirs 0

mutual
/-- The `os.walk` traversal of `get_config_files`: at each directory, run the
pruning loop on the subdirectory names, collect files not in `exclude_files`,
and descend into the subdirectories whose names remain after pruning. -/
def walkTree (exD exF : List String) (dirpath : String) : DirTree → List String
  | .node subs files =>
      let kept := pruneRun exD dirpath subs.names
      ((files.filter fun f => decide (joinPath dirpath f ∉ exF)).map
          (joinPath dirpath)) ++ walkSubs exD exF dirpath kept subs
/-- Descend, in listing order, into the subdirectories whose names survived
the pruning loop. -/
def walkSubs (exD exF : List String) (dirpath : String) (kept : List String) :
    DirList → List String
  | .nil => []
  | .cons n t rest =>
      (if n ∈ kept then walkTree exD exF (joinPath dirpath n) t else []) ++
        walkSubs exD exF dirpath kept rest
end

/-- `FileMonitor.get_config_files`: the set of monitored paths, as a
duplicate-free list (Python builds a `set`).  Explicitly included files are
added first, unconditionally; each included directory contributes its walk. -/
def get_config_files (cfg : MonitorConfig) (fs : Filesys) : List String :=
  (cfg.include_files ++ cfg.include_dirs.flatMap fun d =>
      match fs.root d with
      | some t => walkTree cfg.exclude_dirs cfg.exclude_files d t
      | none => []).dedup

/-! ## IntegrityStore operations -/

/-- `FileMonitor.get_database_files`: `SELECT *` in rowid order. -/
def get_database_files (st : Store) : List Record := st

/-- `FileMonitor.get_modified_files`: rows with `is_modified = 1`. -/
def get_modified_files (st : Store) : List Record :=
  st.filter fun r => r.is_modified

/-- `FileMonitor.hash_file`: SHA-1 hexdigest of the file's bytes; `none`
models the exception raised when the file cannot be opened or read. -/
def hash_file (fs : Filesys) (file_location : String) : Option String :=
  (fs.content file_location).map sha1hex

/-- `FileMonitor.init_database`: drop the table (discarding `old` entirely),
then insert `(path, hash, 'Not checked.', 0)` for every config file whose
hash succeeds, skipping failures silently. -/
def init_database (fs : Filesys) (cfg : MonitorConfig) (_old : Store) : Store :=
  (get_config_files cfg fs).filterMap fun p =>
    (hash_file fs p).map fun h => Record.mk p h "Not checked." false

/-- Effect on one row `q` of the SQL
`UPDATE file_data SET new_hash=?, is_modified=? WHERE file_location=?`
issued by `check_existing_files` for the snapshot record `r`. -/
def applyExisting (fs : Filesys) (r q : Record) : Record :=
  if q.file_location = r.file_location then
    match hash_file fs r.file_location with
    | some h => { q with new_hash := h, is_modified := h != r.original_hash }
    | none => { q with new_hash := "File deleted.", is_modified := true }
  else q

/-- `FileMonitor.check_existing_files`: snapshot the table, then for each
snapshot record re-hash its path and update every row with that location. -/
def check_existing_files (fs : Filesys) (st : Store) : Store :=
  (get_database_files st).foldl (fun db r => db.map (applyExisting fs r)) st

/-- `FileMonitor.check_new_files`: insert `(path, 'New File.', hash, 1)` for
every config file not already present, skipping paths whose hash fails. -/
def check_new_files (fs : Filesys) (cfg : MonitorConfig) (st : Store) : Store :=
  let config_files := get_config_files cfg fs
  let database_files := (get_database_files st).map Record.file_location
  st ++ (config_files.filter fun p => decide (p ∉ database_files)).filterMap
    fun p => (hash_file fs p).map fun h => Record.mk p "New File." h true

/-- Effect on one row `q` of the SQL
`UPDATE file_data SET original_hash=?, new_hash='Not checked.', is_modified=0
WHERE file_location=?` issued by `update_database` for snapshot record `r`. -/
def applyUpdate (r q : Record) : Record :=
  if q.file_location = r.file_location then
    { q with original_hash := r.new_hash, new_hash := "Not checked.",
             is_modified := false }
  else q

/-- `FileMonitor.update_database`: snapshot the table, delete rows whose
`new_hash` is the deleted sentinel, then for each snapshot record promote its
`new_hash` into `original_hash` on every surviving row with that location. -/
def update_database (st : Store) : Store :=
  let database_files := get_database_files st
  let afterDelete := st.filter fun r => decide (r.new_hash ≠ "File deleted.")
  database_files.foldl (fun db r => db.map (applyUpdate r)) afterDelete

/-- The `diff` command: phase A (`check_existing_files`) then phase B
(`check_new_files`). -/
def diff (fs : Filesys) (cfg : MonitorConfig) (st : Store) : Store :=
  check_new_files fs cfg (check_existing_files fs st)

/-- Path uniqueness: no two rows share a `file_location`. -/
def UniqueLocs (st : Store) : Prop :=
  (st.map Record.file_location).Nodup

/-! ## Facts about the SHA-1 hexdigest -/

/-- Characters allowed in a lowercase hexadecimal digest. -/
def isHexChar (c : Char) : Bool := "0123456789abcdef".toList.contains c

theorem toHexPad_length (k n : Nat) : (toHexPad k n).length = k := by
  induction k generalizing n with
  | zero => rfl
  | succ k ih => simp [toHexPad, ih]

theorem hexDigitAux_hex : ∀ m, m < 16 → isHexChar (hexDigitAux m) = true := by
  decide

theorem hexDigit_hex (n : Nat) : isHexChar (hexDigit n) = true :=
  hexDigitAux_hex _ (Nat.mod_lt _ (by norm_num))

theorem toHexPad_hex (k n : Nat) : ∀ c ∈ toHexPad k n, isHexChar c = true := by
  induction k generalizing n with
  | zero => intro c hc; simp [toHexPad] at hc
  | succ k ih =>
    intro c hc
    simp only [toHexPad, List.mem_append, List.mem_singleton] at hc
    rcases hc with hc | rfl
    · exact ih _ _ hc
    · exact hexDigit_hex n

theorem sha1hex_length (ms : List Nat) : (sha1hex ms).length = 40 := by
  show (String.mk _).length = 40
  simp [String.length, toHexPad_length]

theorem sha1hex_hex (ms : List Nat) :
    ∀ c ∈ (sha1hex ms).toList, isHexChar c = true := by
  intro c hc
  have : c ∈ toHexPad 8 (sha1Words ms).1 ++ toHexPad 8 (sha1Words ms).2.1 ++
      toHexPad 8 (sha1Words ms).2.2.1 ++ toHexPad 8 (sha1Words ms).2.2.2.1 ++
      toHexPad 8 (sha1Words ms).2.2.2.2 := by
    simpa [sha1hex, String.toList] using hc
  simp only [List.mem_append] at this
  rcases this with ((((h | h) | h) | h) | h) <;> exact toHexPad_hex _ _ _ h

theorem sha1hex_ne (ms : List Nat) (s : String) (h : s.length ≠ 40) :
    sha1hex ms ≠ s := by
  intro e
  exact h (e ▸ sha1hex_length ms)

theorem sha1hex_ne_notchecked (ms : List Nat) : sha1hex ms ≠ "Not checked." :=
  sha1hex_ne ms _ (by decide)

theorem sha1hex_ne_newfile (ms : List Nat) : sha1hex ms ≠ "New File." :=
  sha1hex_ne ms _ (by decide)

theorem sha1hex_ne_deleted (ms : List Nat) : sha1hex ms ≠ "File deleted." :=
  sha1hex_ne ms _ (by decide)

/-! ## The last matching row of a SQL `WHERE file_location = p` scan -/

/-- The last record of `l` whose `file_location` is `p`: sequential SQL
updates keyed on `p` leave each row with the values computed from this
record. -/
def lastMatch (l : List Record) (p : String) : Option Record :=
  l.foldl (fun acc r => if r.file_location = p then some r else acc) none

theorem lastMatch_shift (p : String) (l : List Record) (a : Option Record) :
    l.foldl (fun acc r => if r.file_location = p then some r else acc) a =
      match lastMatch l p with
      | some r => some r
      | none => a := by
  induction l generalizing a with
  | nil => simp [lastMatch]
  | cons y l ih =>
    show l.foldl _ (if y.file_location = p then some y else a) = _
    rw [ih]
    have hr : lastMatch (y :: l) p =
        l.foldl (fun acc r => if r.file_location = p then some r else acc)
          (if y.file_location = p then some y else none) := rfl
    rw [hr, ih]
    cases hF : lastMatch l p with
    | some r => simp
    | none => by_cases hy : y.file_location = p <;> simp [hy]

theorem lastMatch_singleton (r : Record) (p : String) :
    lastMatch [r] p = if r.file_location = p then some r else none := rfl

theorem lastMatch_cons (x : Record) (l : List Record) (p : String) :
    lastMatch (x :: l) p =
      match lastMatch l p with
      | some r => some r
      | none => if x.file_location = p then some x else none := by
  show l.foldl _ (if x.file_location = p then some x else none) = _
  rw [lastMatch_shift]

theorem lastMatch_append (l₁ l₂ : List Record) (p : String) :
    lastMatch (l₁ ++ l₂) p =
      match lastMatch l₂ p with
      | some r => some r
      | none => lastMatch l₁ p := by
  show (l₁ ++ l₂).foldl _ none = _
  rw [List.foldl_append, lastMatch_shift]
  rfl

theorem lastMatch_mem {l : List Record} {p : String} {r : Record}
    (h : lastMatch l p = some r) : r ∈ l ∧ r.file_location = p := by
  induction l with
  | nil => simp [lastMatch] at h
  | cons x l ih =>
    rw [lastMatch_cons] at h
    cases hF : lastMatch l p with
    | some r' =>
      rw [hF] at h
      obtain rfl : r' = r := by simpa using h
      exact ⟨List.mem_cons_of_mem _ (ih hF).1, (ih hF).2⟩
    | none =>
      rw [hF] at h
      by_cases hx : x.file_location = p
      · simp only [hx, if_pos] at h
        obtain rfl : x = r := by simpa using h
        exact ⟨List.mem_cons_self _ _, hx⟩
      · simp [hx] at h

theorem lastMatch_none {l : List Record} {p : String}
    (h : p ∉ l.map Record.file_location) : lastMatch l p = none := by
  induction l with
  | nil => rfl
  | cons x l ih =>
    simp only [List.map_cons, List.mem_cons, not_or] at h
    rw [lastMatch_cons, ih h.2]
    have hx : ¬ x.file_location = p := fun e => h.1 e.symm
    simp [hx]

theorem lastMatch_isSome {l : List Record} {r : Record} (hr : r ∈ l) :
    ∃ r', lastMatch l r.file_location = some r' := by
  induction l with
  | nil => simp at hr
  | cons x l ih =>
    rw [lastMatch_cons]
    rcases List.mem_cons.1 hr with rfl | hmem
    · cases hF : lastMatch l r.file_location with
      | some r' => exact ⟨r', rfl⟩
      | none => exact ⟨r, by simp⟩
    · obtain ⟨r', hr'⟩ := ih hmem
      exact ⟨r', by rw [hr']⟩

theorem lastMatch_self {l : List Record} {r : Record} (hu : UniqueLocs l)
    (hr : r ∈ l) : lastMatch l r.file_location = some r := by
  induction l with
  | nil => simp at hr
  | cons x l ih =>
    have hu' : UniqueLocs l := (List.nodup_cons.1 hu).2
    have hx : x.file_location ∉ l.map Record.file_location :=
      (List.nodup_cons.1 hu).1
    rw [lastMatch_cons]
    rcases List.mem_cons.1 hr with rfl | hmem
    · rw [lastMatch_none hx]; simp
    · rw [ih hu' hmem]

theorem lastMatch_map {φ : Record → Record}
    (hφ : ∀ q, (φ q).file_location = q.file_location) (l : List Record)
    (p : String) : lastMatch (l.map φ) p = (lastMatch l p).map φ := by
  induction l with
  | nil => rfl
  | cons x l ih =>
    rw [List.map_cons, lastMatch_cons, lastMatch_cons, ih]
    cases lastMatch l p with
    | some r => rfl
    | none => rw [hφ x]; by_cases hx : x.file_location = p <;> simp [hx]

/-! ## Folding sequential SQL updates -/

theorem foldl_map_comm {α β : Type} (g : β → α → α) (l : List β)
    (init : List α) :
    l.foldl (fun db r => db.map (g r)) init =
      init.map fun a => l.foldl (fun x r => g r x) a := by
  induction l generalizing init with
  | nil => simp
  | cons b l ih =>
    simp only [List.foldl_cons]
    rw [ih, List.map_map]
    rfl

/-- The accumulated effect of the `check_existing_files` UPDATE loop on one
row. -/
def foldE (fs : Filesys) (l : List Record) (q : Record) : Record :=
  l.foldl (fun x r => applyExisting fs r x) q

/-- The accumulated effect of the `update_database` UPDATE loop on one row. -/
def foldU (l : List Record) (q : Record) : Record :=
  l.foldl (fun x r => applyUpdate r x) q

theorem applyExisting_loc (fs : Filesys) (r q : Record) :
    (applyExisting fs r q).file_location = q.file_location := by
  unfold applyExisting
  by_cases hq : q.file_location = r.file_location
  · simp only [hq, if_pos rfl]
    cases hash_file fs r.file_location <;> simp [hq]
  · simp [hq]

theorem applyExisting_orig (fs : Filesys) (r q : Record) :
    (applyExisting fs r q).original_hash = q.original_hash := by
  unfold applyExisting
  by_cases hq : q.file_location = r.file_location
  · simp only [hq, if_pos rfl]
    cases hash_file fs r.file_location <;> simp
  · simp [hq]

theorem applyExisting_skip (fs : Filesys) (r q : Record)
    (h : q.file_location ≠ r.file_location) : applyExisting fs r q = q := by
  simp [applyExisting, h]

theorem applyExisting_ext (fs : Filesys) (r q q' : Record)
    (hl : q'.file_location = q.file_location)
    (ho : q'.original_hash = q.original_hash)
    (hq : q.file_location = r.file_location) :
    applyExisting fs r q' = applyExisting fs r q := by
  obtain ⟨a, b, c, d⟩ := q
  obtain ⟨a', b', c', d'⟩ := q'
  replace hl : a' = a := hl
  replace ho : b' = b := ho
  replace hq : a = r.file_location := hq
  subst hl
  subst ho
  cases hh : hash_file fs r.file_location <;> simp [applyExisting, hq, hh]

theorem applyExisting_idem (fs : Filesys) (r q : Record) :
    applyExisting fs r (applyExisting fs r q) = applyExisting fs r q := by
  by_cases hq : q.file_location = r.file_location
  · exact applyExisting_ext fs r q _ (applyExisting_loc fs r q)
      (applyExisting_orig fs r q) hq
  · rw [applyExisting_skip fs r q hq, applyExisting_skip fs r q hq]

theorem applyUpdate_loc (r q : Record) :
    (applyUpdate r q).file_location = q.file_location := by
  unfold applyUpdate
  by_cases hq : q.file_location = r.file_location <;> simp [hq]

theorem applyUpdate_skip (r q : Record)
    (h : q.file_location ≠ r.file_location) : applyUpdate r q = q := by
  simp [applyUpdate, h]

theorem applyUpdate_ext (r q q' : Record)
    (hl : q'.file_location = q.file_location)
    (hq : q.file_location = r.file_location) :
    applyUpdate r q' = applyUpdate r q := by
  obtain ⟨a, b, c, d⟩ := q
  obtain ⟨a', b', c', d'⟩ := q'
  replace hl : a' = a := hl
  replace hq : a = r.file_location := hq
  subst hl
  simp [applyUpdate, hq]

theorem foldE_loc (fs : Filesys) (l : List Record) (q : Record) :
    (foldE fs l q).file_location = q.file_location := by
  induction l generalizing q with
  | nil => rfl
  | cons r l ih =>
    show (foldE fs l (applyExisting fs r q)).file_location = _
    rw [ih, applyExisting_loc]

theorem foldE_orig (fs : Filesys) (l : List Record) (q : Record) :
    (foldE fs l q).original_hash = q.original_hash := by
  induction l generalizing q with
  | nil => rfl
  | cons r l ih =>
    show (foldE fs l (applyExisting fs r q)).original_hash = _
    rw [ih, applyExisting_orig]

theorem foldU_loc (l : List Record) (q : Record) :
    (foldU l q).file_location = q.file_location := by
  induction l generalizing q with
  | nil => rfl
  | cons r l ih =>
    show (foldU l (applyUpdate r q)).file_location = _
    rw [ih, applyUpdate_loc]

theorem foldE_char (fs : Filesys) (l : List Record) (q : Record) :
    foldE fs l q =
      match lastMatch l q.file_location with
      | some r => applyExisting fs r q
      | none => q := by
  induction l using List.reverseRecOn with
  | nil => rfl
  | append_singleton l r ih =>
    have hstep : foldE fs (l ++ [r]) q = applyExisting fs r (foldE fs l q) := by
      unfold foldE
      rw [List.foldl_append]
      rfl
    rw [hstep, lastMatch_append, lastMatch_singleton]
    by_cases hr : r.file_location = q.file_location
    · simp only [hr, if_pos rfl]
      exact applyExisting_ext fs r q (foldE fs l q) (foldE_loc fs l q)
        (foldE_orig fs l q) hr.symm
    · simp only [hr, if_neg hr]
      rw [applyExisting_skip fs r _ (by rw [foldE_loc]; exact fun e => hr e.symm)]
      exact ih

theorem foldU_char (l : List Record) (q : Record) :
    foldU l q =
      match lastMatch l q.file_location with
      | some r => applyUpdate r q
      | none => q := by
  induction l using List.reverseRecOn with
  | nil => rfl
  | append_singleton l r ih =>
    have hstep : foldU (l ++ [r]) q = applyUpdate r (foldU l q) := by
      unfold foldU
      rw [List.foldl_append]
      rfl
    rw [hstep, lastMatch_append, lastMatch_singleton]
    by_cases hr : r.file_location = q.file_location
    · simp only [hr, if_pos rfl]
      exact applyUpdate_ext r q (foldU l q) (foldU_loc l q) hr.symm
    · simp only [hr, if_neg hr]
      rw [applyUpdate_skip r _ (by rw [foldU_loc]; exact fun e => hr e.symm)]
      exact ih

/-- `check_existing_files` acts row-wise: each row receives the values from
the last snapshot record sharing its location. -/
theorem check_existing_files_eq (fs : Filesys) (st : Store) :
    check_existing_files fs st = st.map fun q => foldE fs st q := by
  unfold check_existing_files get_database_files foldE
  exact foldl_map_comm _ st st

/-- `update_database` acts row-wise on the rows surviving the DELETE. -/
theorem update_database_eq (st : Store) :
    update_database st =
      (st.filter fun r => decide (r.new_hash ≠ "File deleted.")).map
        fun q => foldU st q := by
  unfold update_database get_database_files foldU
  exact foldl_map_comm _ st _

/-! ## The records inserted by `check_new_files` -/

/-- The records that `check_new_files` inserts when the set of already-known
locations is `known`. -/
def newRecords (fs : Filesys) (cfg : MonitorConfig) (known : List String) :
    List Record :=
  ((get_config_files cfg fs).filter fun p => decide (p ∉ known)).filterMap
    fun p => (hash_file fs p).map fun h => Record.mk p "New File." h true

theorem check_new_files_eq (fs : Filesys) (cfg : MonitorConfig) (st : Store) :
    check_new_files fs cfg st =
      st ++ newRecords fs cfg (st.map Record.file_location) := rfl

theorem newRecords_spec {fs : Filesys} {cfg : MonitorConfig}
    {known : List String} {r : Record} (h : r ∈ newRecords fs cfg known) :
    r.file_location ∈ get_config_files cfg fs ∧ r.file_location ∉ known ∧
    hash_file fs r.file_location = some r.new_hash ∧
    r.original_hash = "New File." ∧ r.is_modified = true := by
  unfold newRecords at h
  obtain ⟨p, hp, hmap⟩ := List.mem_filterMap.1 h
  obtain ⟨h', hh', rfl⟩ := Option.map_eq_some'.1 hmap
  obtain ⟨hpc, hpk⟩ := List.mem_filter.1 hp
  refine ⟨hpc, by simpa using hpk, by simpa using hh', rfl, rfl⟩

theorem newRecords_mem {fs : Filesys} {cfg : MonitorConfig}
    {known : List String} {p : String} {h : String}
    (hp : p ∈ get_config_files cfg fs) (hk : p ∉ known)
    (hh : hash_file fs p = some h) :
    Record.mk p "New File." h true ∈ newRecords fs cfg known := by
  unfold newRecords
  exact List.mem_filterMap.2
    ⟨p, List.mem_filter.2 ⟨hp, by simpa using hk⟩, by rw [hh]; rfl⟩

/-! ## Location lists and uniqueness -/

theorem get_config_files_nodup (cfg : MonitorConfig) (fs : Filesys) :
    (get_config_files cfg fs).Nodup := by
  unfold get_config_files
  exact List.nodup_dedup _

theorem locs_filterMap_sublist {f : String → Option Record}
    (hf : ∀ p r, f p = some r → r.file_location = p) :
    ∀ l : List String,
      List.Sublist ((l.filterMap f).map Record.file_location) l := by
  intro l
  induction l with
  | nil => simp
  | cons p l ih =>
    cases hp : f p with
    | none => simpa [List.filterMap_cons, hp] using ih.cons p
    | some r => simpa [List.filterMap_cons, hp, hf p r hp] using ih.cons₂ p

theorem uniq_init (fs : Filesys) (cfg : MonitorConfig) (old : Store) :
    UniqueLocs (init_database fs cfg old) := by
  unfold UniqueLocs init_database
  refine List.Nodup.sublist (locs_filterMap_sublist ?_ _)
    (get_config_files_nodup cfg fs)
  intro p r h
  obtain ⟨h', _, rfl⟩ := Option.map_eq_some'.1 h
  rfl

theorem locs_check_existing (fs : Filesys) (st : Store) :
    (check_existing_files fs st).map Record.file_location =
      st.map Record.file_location := by
  rw [check_existing_files_eq, List.map_map]
  exact List.map_congr_left fun a _ => foldE_loc fs st a

theorem uniq_check_existing (fs : Filesys) (st : Store) (hu : UniqueLocs st) :
    UniqueLocs (check_existing_files fs st) := by
  unfold UniqueLocs
  rw [locs_check_existing]
  exact hu

theorem locs_newRecords_sublist (fs : Filesys) (cfg : MonitorConfig)
    (known : List String) :
    List.Sublist ((newRecords fs cfg known).map Record.file_location)
      ((get_config_files cfg fs).filter fun p => decide (p ∉ known)) := by
  unfold newRecords
  refine locs_filterMap_sublist ?_ _
  intro p r h
  obtain ⟨h', _, rfl⟩ := Option.map_eq_some'.1 h
  rfl

theorem uniq_newRecords (fs : Filesys) (cfg : MonitorConfig)
    (known : List String) :
    ((newRecords fs cfg known).map Record.file_location).Nodup :=
  List.Nodup.sublist (locs_newRecords_sublist fs cfg known)
    ((get_config_files_nodup cfg fs).filter _)

theorem uniq_check_new (fs : Filesys) (cfg : MonitorConfig) (st : Store)
    (hu : UniqueLocs st) : UniqueLocs (check_new_files fs cfg st) := by
  rw [check_new_files_eq]
  unfold UniqueLocs
  rw [List.map_append]
  refine hu.append (uniq_newRecords fs cfg _) ?_
  intro a ha hb
  obtain ⟨r, hr, rfl⟩ := List.mem_map.1 hb
  exact (newRecords_spec hr).2.1 ha

theorem uniq_update (st : Store) (hu : UniqueLocs st) :
    UniqueLocs (update_database st) := by
  rw [update_database_eq]
  unfold UniqueLocs
  rw [List.map_map]
  have heq : (st.filter fun r => decide (r.new_hash ≠ "File deleted.")).map
        (Record.file_location ∘ fun q => foldU st q) =
      (st.filter fun r => decide (r.new_hash ≠ "File deleted.")).map
        Record.file_location :=
    List.map_congr_left fun a _ => foldU_loc st a
  rw [heq]
  exact hu.sublist ((List.filter_sublist st).map Record.file_location)

theorem uniqueLocs_eq_of_mem {l : List Record} (hu : UniqueLocs l)
    {q r : Record} (hq : q ∈ l) (hr : r ∈ l)
    (h : q.file_location = r.file_location) : q = r := by
  have h1 := lastMatch_self hu hq
  have h2 := lastMatch_self hu hr
  rw [h] at h1
  rw [h1] at h2
  exact Option.some.inj h2

/-! ## Facts about `update_database` -/

theorem update_all_notchecked {st : Store} {r' : Record}
    (h : r' ∈ update_database st) : r'.new_hash = "Not checked." := by
  rw [update_database_eq] at h
  obtain ⟨q, hq, rfl⟩ := List.mem_map.1 h
  have hqst : q ∈ st := (List.mem_filter.1 hq).1
  obtain ⟨r₀, hr₀⟩ := lastMatch_isSome hqst
  rw [foldU_char, hr₀]
  have hloc : r₀.file_location = q.file_location := (lastMatch_mem hr₀).2
  simp [applyUpdate, hloc.symm]

theorem update_preserves_survivor {st : Store} {r : Record} (hr : r ∈ st)
    (hne : r.new_hash ≠ "File deleted.") :
    ∃ r' ∈ update_database st, r'.file_location = r.file_location := by
  rw [update_database_eq]
  exact ⟨foldU st r,
    List.mem_map_of_mem _ (List.mem_filter.2 ⟨hr, by simpa using hne⟩),
    foldU_loc st r⟩

/-! ## Concrete fixtures -/

/-- A filesystem with no directories and no readable files. -/
def fsEmpty : Filesys := ⟨fun _ => none, fun _ => none⟩

/-- A configuration with no includes and no excludes. -/
def cfgEmpty : MonitorConfig := ⟨[], [], [], []⟩

/-- A filesystem where only the file `/a` is readable, with bytes `abc`. -/
def fsAbc : Filesys :=
  ⟨fun _ => none, fun p => if p = "/a" then some [97, 98, 99] else none⟩

/-- A configuration that includes the single file `/a`. -/
def cfgIncA : MonitorConfig := ⟨[], ["/a"], [], []⟩

/-- A configuration that includes `/a` as a file while also listing it in
both exclusion sets. -/
def cfgC10 : MonitorConfig := ⟨[], ["/a"], ["/a"], ["/a"]⟩

def stC2 : Store := [Record.mk "/a" "o" "n" false]

def stC6 : Store := [Record.mk "/b" "o" "n" true]

def stC8 : Store :=
  [Record.mk "/a" "h1" "x" false, Record.mk "/b" "h2" "File deleted." true]

def stC5 : Store :=
  [Record.mk "/a" "ha" "File deleted." true, Record.mk "/b" "hb" "x" false]

/-! ## Claims -/

/-- Claim C10: every path in `include_files` appears in the output of
`get_config_files`, for every configuration and filesystem — in particular
regardless of the exclusion sets and of the directory walk. -/
theorem claim_C10 (cfg : MonitorConfig) (fs : Filesys) (p : String)
    (hp : p ∈ cfg.include_files) : p ∈ get_config_files cfg fs := by
  unfold get_config_files
  rw [List.mem_dedup]
  exact List.mem_append_left _ hp

/-- Witness for C10: `/a` is included even though it is listed in
`exclude_files` and `exclude_dirs`. -/
theorem claim_C10_witness :
    "/a" ∈ cfgC10.exclude_files ∧ "/a" ∈ cfgC10.exclude_dirs ∧
    "/a" ∈ get_config_files cfgC10 fsEmpty :=
  ⟨by decide, by decide, claim_C10 cfgC10 fsEmpty "/a" (by decide)⟩

/-- Claim C2: in `check_existing_files`, each record (in a store with unique
locations) keeps its location and original hash; if re-hashing fails the row
gets the `File deleted.` sentinel and `is_modified = 1`, and if re-hashing
yields `h` the row gets `new_hash = h` and `is_modified` set exactly when
`h` differs from the original hash.  The operation is total: no error is
propagated. -/
theorem claim_C2 (fs : Filesys) (st : Store) (hu : UniqueLocs st) (i : Nat)
    (r : Record) (hr : st[i]? = some r) :
    ∃ r', (check_existing_files fs st)[i]? = some r' ∧
      r'.file_location = r.file_location ∧
      r'.original_hash = r.original_hash ∧
      (hash_file fs r.file_location = none →
        r'.new_hash = "File deleted." ∧ r'.is_modified = true) ∧
      ∀ h, hash_file fs r.file_location = some h →
        r'.new_hash = h ∧ r'.is_modified = (h != r.original_hash) := by
  have hmem : r ∈ st := List.getElem?_mem hr
  have hchar : foldE fs st r = applyExisting fs r r := by
    rw [foldE_char, lastMatch_self hu hmem]
  refine ⟨foldE fs st r, ?_, foldE_loc fs st r, foldE_orig fs st r, ?_, ?_⟩
  · rw [check_existing_files_eq, List.getElem?_map, hr]
    rfl
  · intro hn
    rw [hchar]
    simp [applyExisting, hn]
  · intro h hs
    rw [hchar]
    simp [applyExisting, hs]

/-- Witness for C2: the deletion branch on a concrete store. -/
theorem claim_C2_witness :
    ∃ r', (check_existing_files fsEmpty stC2)[0]? = some r' ∧
      r'.file_location = (Record.mk "/a" "o" "n" false).file_location ∧
      r'.original_hash = (Record.mk "/a" "o" "n" false).original_hash ∧
      (hash_file fsEmpty (Record.mk "/a" "o" "n" false).file_location = none →
        r'.new_hash = "File deleted." ∧ r'.is_modified = true) ∧
      ∀ h, hash_file fsEmpty
          (Record.mk "/a" "o" "n" false).file_location = some h →
        r'.new_hash = h ∧
          r'.is_modified = (h != (Record.mk "/a" "o" "n" false).original_hash) :=
  claim_C2 fsEmpty stC2 (by unfold UniqueLocs; decide) 0 (Record.mk "/a" "o" "n" false) rfl

/-- Claim C6: `diff` (phase A then phase B) never removes a record: every
row of the store is still present at its index afterwards, with its location
and its `original_hash` unchanged. -/
theorem claim_C6 (fs : Filesys) (cfg : MonitorConfig) (st : Store) (i : Nat)
    (r : Record) (hr : st[i]? = some r) :
    ∃ r', (diff fs cfg st)[i]? = some r' ∧
      r'.file_location = r.file_location ∧
      r'.original_hash = r.original_hash := by
  have hi : i < st.length := (List.getElem?_eq_some.1 hr).1
  refine ⟨foldE fs st r, ?_, foldE_loc fs st r, foldE_orig fs st r⟩
  have hlen : i < (check_existing_files fs st).length := by
    rw [check_existing_files_eq, List.length_map]
    exact hi
  show (check_new_files fs cfg (check_existing_files fs st))[i]? = _
  rw [check_new_files_eq, List.getElem?_append_left hlen,
    check_existing_files_eq, List.getElem?_map, hr]
  rfl

/-- Witness for C6 on a concrete store. -/
theorem claim_C6_witness :
    ∃ r', (diff fsEmpty cfgEmpty stC6)[0]? = some r' ∧
      r'.file_location = (Record.mk "/b" "o" "n" true).file_location ∧
      r'.original_hash = (Record.mk "/b" "o" "n" true).original_hash :=
  claim_C6 fsEmpty cfgEmpty stC6 0 (Record.mk "/b" "o" "n" true) rfl

/-- Claim C8: path uniqueness is an invariant: `init_database` establishes
it unconditionally, and each of `check_existing_files`, `check_new_files`
and `update_database` preserves it. -/
theorem claim_C8 (fs : Filesys) (cfg : MonitorConfig) (st old : Store) :
    UniqueLocs (init_database fs cfg old) ∧
    (UniqueLocs st → UniqueLocs (check_existing_files fs st)) ∧
    (UniqueLocs st → UniqueLocs (check_new_files fs cfg st)) ∧
    (UniqueLocs st → UniqueLocs (update_database st)) :=
  ⟨uniq_init fs cfg old, uniq_check_existing fs st, uniq_check_new fs cfg st,
    uniq_update st⟩

/-- Witness for C8 on a concrete two-record store. -/
theorem claim_C8_witness :
    UniqueLocs stC8 ∧ UniqueLocs (update_database stC8) :=
  ⟨by unfold UniqueLocs; decide,
    (claim_C8 fsEmpty cfgEmpty stC8 []).2.2.2 (by unfold UniqueLocs; decide)⟩

/-- Claim C9: a successful `hash_file` returns the 40-character lowercase
hexadecimal SHA-1 digest, which differs from all three sentinel strings;
consequently the DELETE step of `update_database` never destroys a row
whose `new_hash` came from a successful hash. -/
theorem claim_C9 (fs : Filesys) (p : String) (h : String)
    (hh : hash_file fs p = some h) :
    h.length = 40 ∧ (∀ c ∈ h.toList, isHexChar c = true) ∧
    h ≠ "Not checked." ∧ h ≠ "New File." ∧ h ≠ "File deleted." ∧
    ∀ st : Store, ∀ r ∈ st, r.new_hash = h →
      ∃ r' ∈ update_database st, r'.file_location = r.file_location := by
  obtain ⟨bytes, hb, rfl⟩ := Option.map_eq_some'.1 hh
  refine ⟨sha1hex_length bytes, sha1hex_hex bytes, sha1hex_ne_notchecked bytes,
    sha1hex_ne_newfile bytes, sha1hex_ne_deleted bytes, ?_⟩
  intro st r hr hnew
  refine update_preserves_survivor hr ?_
  rw [hnew]
  exact sha1hex_ne_deleted bytes

/-- Witness for C9 at the concrete content `abc` of `/a`. -/
theorem claim_C9_witness :
    (sha1hex [97, 98, 99]).length = 40 ∧
    (∀ c ∈ (sha1hex [97, 98, 99]).toList, isHexChar c = true) ∧
    sha1hex [97, 98, 99] ≠ "Not checked." ∧
    sha1hex [97, 98, 99] ≠ "New File." ∧
    sha1hex [97, 98, 99] ≠ "File deleted." ∧
    ∀ st : Store, ∀ r ∈ st, r.new_hash = sha1hex [97, 98, 99] →
      ∃ r' ∈ update_database st, r'.file_location = r.file_location :=
  claim_C9 fsAbc "/a" (sha1hex [97, 98, 99]) rfl

/-- Counterexample to claim C5 as stated: `init_database` is an operation
other than `update`, yet it destroys an existing record whose `new_hash` is
not the deleted sentinel (the rebuild drops the whole table). -/
theorem claim_C5_counterexample :
    (Record.mk "/b" "hb" "x" false) ∈ ([Record.mk "/b" "hb" "x" false] : Store) ∧
    (Record.mk "/b" "hb" "x" false).new_hash ≠ "File deleted." ∧
    init_database fsEmpty cfgEmpty [Record.mk "/b" "hb" "x" false] = [] := by
  refine ⟨List.mem_singleton.2 rfl, by decide, rfl⟩

/-- Claim C5 (amended): in a store with unique locations, a record whose
`new_hash` is the deleted sentinel leaves no row with its `file_location`
after `update_database`; the two phases of `diff` never destroy a record;
and `update_database` keeps (in updated form) every record whose `new_hash`
is not the deleted sentinel.  (`init_database`, by design, discards all
prior records — see the counterexample.) -/
theorem claim_C5_amended (fs : Filesys) (cfg : MonitorConfig) (st : Store) :
    (UniqueLocs st → ∀ r ∈ st, r.new_hash = "File deleted." →
      ∀ r' ∈ update_database st, r'.file_location ≠ r.file_location) ∧
    (∀ i : Nat, ∀ r : Record, st[i]? = some r →
      ∃ r', (check_existing_files fs st)[i]? = some r' ∧
        r'.file_location = r.file_location) ∧
    (∃ ext, check_new_files fs cfg st = st ++ ext) ∧
    (∀ r ∈ st, r.new_hash ≠ "File deleted." →
      ∃ r' ∈ update_database st, r'.file_location = r.file_location) := by
  refine ⟨?_, ?_, ⟨_, check_new_files_eq fs cfg st⟩,
    fun r hr hne => update_preserves_survivor hr hne⟩
  · intro hu r hrmem hdel r' hr' hloc
    rw [update_database_eq] at hr'
    obtain ⟨q, hq, rfl⟩ := List.mem_map.1 hr'
    have hqst : q ∈ st := (List.mem_filter.1 hq).1
    have hqne : q.new_hash ≠ "File deleted." := by
      simpa using (List.mem_filter.1 hq).2
    have hql : q.file_location = r.file_location := by
      rw [← foldU_loc st q]
      exact hloc
    have hqr : q = r := uniqueLocs_eq_of_mem hu hqst hrmem hql
    rw [hqr] at hqne
    exact hqne hdel
  · intro i r hr
    refine ⟨foldE fs st r, ?_, foldE_loc fs st r⟩
    rw [check_existing_files_eq, List.getElem?_map, hr]
    rfl

/-- Witness for the amended C5: after `update`, no row at the deleted
path `/a` remains, while the surviving path `/b` is still present. -/
theorem claim_C5_witness :
    (∀ r' ∈ update_database stC5,
      r'.file_location ≠ (Record.mk "/a" "ha" "File deleted." true).file_location) ∧
    ∃ r' ∈ update_database stC5, r'.file_location = "/b" := by
  refine ⟨(claim_C5_amended fsEmpty cfgEmpty stC5).1
    (by unfold UniqueLocs; decide) _ (by decide) rfl, ?_⟩
  exact (claim_C5_amended fsEmpty cfgEmpty stC5).2.2.2
    (Record.mk "/b" "hb" "x" false) (by decide) (by decide)

/-- Claim C7: after `init_database`, the store holds exactly the records
`(p, sha1 of p's bytes, "Not checked.", 0)` for the resolved paths whose
hash succeeded: every such path yields its record, every stored record is of
that shape, locations are unique, and the result does not depend on the
prior store contents. -/
theorem claim_C7 (fs : Filesys) (cfg : MonitorConfig) (old : Store) :
    (∀ p ∈ get_config_files cfg fs, ∀ h, hash_file fs p = some h →
      Record.mk p h "Not checked." false ∈ init_database fs cfg old) ∧
    (∀ r ∈ init_database fs cfg old,
      r.file_location ∈ get_config_files cfg fs ∧
      (∃ bytes, fs.content r.file_location = some bytes ∧
        r.original_hash = sha1hex bytes) ∧
      r.new_hash = "Not checked." ∧ r.is_modified = false) ∧
    UniqueLocs (init_database fs cfg old) ∧
    init_database fs cfg old = init_database fs cfg [] := by
  refine ⟨?_, ?_, uniq_init fs cfg old, rfl⟩
  · intro p hp h hh
    unfold init_database
    exact List.mem_filterMap.2 ⟨p, hp, by rw [hh]; rfl⟩
  · intro r hr
    unfold init_database at hr
    obtain ⟨p, hp, hmap⟩ := List.mem_filterMap.1 hr
    obtain ⟨h, hh, rfl⟩ := Option.map_eq_some'.1 hmap
    have hh' : (fs.content p).map sha1hex = some h := hh
    obtain ⟨bytes, hb, rfl⟩ := Option.map_eq_some'.1 hh'
    exact ⟨hp, ⟨bytes, hb, rfl⟩, rfl, rfl⟩

/-- Witness for C7: with `/a` containing the bytes `abc`, `init` produces
the record with the SHA-1 of `abc`, regardless of the prior store. -/
theorem claim_C7_witness :
    Record.mk "/a" (sha1hex [97, 98, 99]) "Not checked." false ∈
      init_database fsAbc cfgIncA [Record.mk "/old" "h" "n" false] :=
  (claim_C7 fsAbc cfgIncA [Record.mk "/old" "h" "n" false]).1 "/a" (by decide)
    (sha1hex [97, 98, 99]) rfl

/-! ## The exclusion-pruning bug -/

/-- The failing input for claim C1: the included root `/r` has two
subdirectories `e1` and `e2`, both of whose paths are in `exclude_dirs`;
`e2` contains the file `x`. -/
def cfgC1 : MonitorConfig := ⟨["/r"], [], ["/r/e1", "/r/e2"], []⟩

def treeC1 : DirTree :=
  .node (.cons "e1" (.node .nil []) (.cons "e2" (.node .nil ["x"]) .nil)) []

def fsC1 : Filesys :=
  ⟨fun d => if d = "/r" then some treeC1 else none, fun _ => none⟩

/-- Claim C1 fails on the code: the pruning loop removes entries from the
`dirs` list while iterating over it, so the element after a removed one is
skipped.  With `e1` and `e2` adjacent and both excluded, only `e1` is
pruned; the walk descends into the excluded `/r/e2` and its file `/r/e2/x`
appears in the resolver output. -/
theorem claim_C1_bug :
    "/r/e2" ∈ cfgC1.exclude_dirs ∧
    pruneRun cfgC1.exclude_dirs "/r" ["e1", "e2"] = ["e2"] ∧
    get_config_files cfgC1 fsC1 = ["/r/e2/x"] ∧
    "/r/e2/x" ∈ get_config_files cfgC1 fsC1 := by
  decide

/-! ## Idempotence of `diff` -/

theorem applyExisting_congr_r (fs : Filesys) {r r' : Record} (q : Record)
    (h1 : r.file_location = r'.file_location)
    (h2 : r.original_hash = r'.original_hash) :
    applyExisting fs r q = applyExisting fs r' q := by
  simp only [applyExisting, h1, h2]

theorem foldE_map_self (fs : Filesys) (st : Store) (q : Record) :
    foldE fs (st.map fun x => foldE fs st x) q = foldE fs st q := by
  rw [foldE_char, foldE_char fs st q,
    lastMatch_map (fun x => foldE_loc fs st x)]
  cases hF : lastMatch st q.file_location with
  | none => rfl
  | some r₀ =>
    exact applyExisting_congr_r fs q (foldE_loc fs st r₀) (foldE_orig fs st r₀)

theorem foldE_idem (fs : Filesys) (st : Store) (q : Record) :
    foldE fs st (foldE fs st q) = foldE fs st q := by
  cases hF : lastMatch st q.file_location with
  | none =>
    have h1 : foldE fs st q = q := by rw [foldE_char, hF]
    rw [h1]
    exact h1
  | some r₀ =>
    have hq' : foldE fs st q = applyExisting fs r₀ q := by rw [foldE_char, hF]
    rw [hq', foldE_char, applyExisting_loc, hF]
    exact applyExisting_idem fs r₀ q

theorem foldE_append_of_none {fs : Filesys} {l₂ : List Record} {q : Record}
    (l₁ : List Record) (h : lastMatch l₂ q.file_location = none) :
    foldE fs (l₁ ++ l₂) q = foldE fs l₁ q := by
  rw [foldE_char, lastMatch_append, h]
  exact (foldE_char fs l₁ q).symm

theorem foldE_append_of_some {fs : Filesys} {l₂ : List Record} {q r : Record}
    (l₁ : List Record) (h : lastMatch l₂ q.file_location = some r) :
    foldE fs (l₁ ++ l₂) q = applyExisting fs r q := by
  rw [foldE_char, lastMatch_append, h]

/-- Running phase A on the output of a full `diff` changes nothing: every
row already carries the values a re-scan would compute. -/
theorem chk_exist_fix (fs : Filesys) (cfg : MonitorConfig) (st : Store) :
    check_existing_files fs (diff fs cfg st) = diff fs cfg st := by
  have hdiff : diff fs cfg st =
      check_existing_files fs st ++
        newRecords fs cfg ((check_existing_files fs st).map
          Record.file_location) := check_new_files_eq fs cfg _
  have hs1eq : check_existing_files fs st = st.map fun x => foldE fs st x :=
    check_existing_files_eq fs st
  rw [hdiff, check_existing_files_eq]
  have hmain : ∀ q ∈ check_existing_files fs st ++
      newRecords fs cfg ((check_existing_files fs st).map
        Record.file_location),
      foldE fs (check_existing_files fs st ++
        newRecords fs cfg ((check_existing_files fs st).map
          Record.file_location)) q = q := by
    intro q hq
    rcases List.mem_append.1 hq with hq1 | hq2
    · have hqloc : q.file_location ∈
          (check_existing_files fs st).map Record.file_location :=
        List.mem_map_of_mem _ hq1
      have hAnone : lastMatch (newRecords fs cfg
          ((check_existing_files fs st).map Record.file_location))
          q.file_location = none := by
        apply lastMatch_none
        intro hmem
        obtain ⟨r, hrA, hre⟩ := List.mem_map.1 hmem
        exact (newRecords_spec hrA).2.1 (hre ▸ hqloc)
      rw [foldE_append_of_none _ hAnone]
      rw [hs1eq] at hq1
      obtain ⟨x, _, rfl⟩ := List.mem_map.1 hq1
      rw [hs1eq, foldE_map_self]
      exact foldE_idem fs st x
    · have hAu : UniqueLocs (newRecords fs cfg
          ((check_existing_files fs st).map Record.file_location)) :=
        uniq_newRecords fs cfg _
      rw [foldE_append_of_some _ (lastMatch_self hAu hq2)]
      obtain ⟨_, _, hh, ho, hm⟩ := newRecords_spec hq2
      obtain ⟨a, b, c, d⟩ := q
      replace hh : hash_file fs a = some c := hh
      replace ho : b = "New File." := ho
      replace hm : d = true := hm
      subst ho
      subst hm
      obtain ⟨bytes, _, hbe⟩ := Option.map_eq_some'.1 hh
      have hcb : c ≠ "New File." := by
        rw [← hbe]
        exact sha1hex_ne_newfile bytes
      simp [applyExisting, hh, bne_iff_ne.2 hcb]
  conv_rhs => rw [← List.map_id (check_existing_files fs st ++
    newRecords fs cfg ((check_existing_files fs st).map
      Record.file_location))]
  exact List.map_congr_left hmain

/-- Running phase B on the output of a full `diff` inserts nothing: every
config file that hashes successfully is already present. -/
theorem chk_new_fix (fs : Filesys) (cfg : MonitorConfig) (st : Store) :
    check_new_files fs cfg (diff fs cfg st) = diff fs cfg st := by
  rw [check_new_files_eq]
  suffices h : newRecords fs cfg
      ((diff fs cfg st).map Record.file_location) = [] by
    rw [h, List.append_nil]
  unfold newRecords
  rw [List.filterMap_eq_nil_iff]
  intro p hp
  obtain ⟨hpc, hpk⟩ := List.mem_filter.1 hp
  replace hpk : p ∉ (diff fs cfg st).map Record.file_location := by
    simpa using hpk
  cases hh : hash_file fs p with
  | none => rfl
  | some h =>
    exfalso
    apply hpk
    have hdiff : diff fs cfg st =
        check_existing_files fs st ++
          newRecords fs cfg ((check_existing_files fs st).map
            Record.file_location) := check_new_files_eq fs cfg _
    rw [hdiff, List.map_append, List.mem_append]
    by_cases hps1 : p ∈ (check_existing_files fs st).map Record.file_location
    · exact Or.inl hps1
    · exact Or.inr (List.mem_map_of_mem Record.file_location
        (newRecords_mem hpc hps1 hh))

/-- Claim C3: `diff` is idempotent — with the filesystem unchanged, a second
`diff` returns the store unchanged, so every record's `is_modified` and
`new_hash` agree between the two runs. -/
theorem claim_C3 (fs : Filesys) (cfg : MonitorConfig) (st : Store) :
    diff fs cfg (diff fs cfg st) = diff fs cfg st := by
  show check_new_files fs cfg (check_existing_files fs (diff fs cfg st)) = _
  rw [chk_exist_fix]
  exact chk_new_fix fs cfg st

/-! ## Unmodified records after a diff -/

/-- In the output of `diff` over a store with unique locations, a record
with `is_modified = 0` must come from a successful re-hash that matched the
baseline: its `new_hash` equals its `original_hash` and is not the deleted
sentinel. -/
theorem diff_unmodified {fs : Filesys} {cfg : MonitorConfig} {st : Store}
    (hu : UniqueLocs st) {r : Record} (hr : r ∈ diff fs cfg st)
    (hm : r.is_modified = false) :
    r.new_hash = r.original_hash ∧ r.new_hash ≠ "File deleted." := by
  have hdiff : diff fs cfg st =
      check_existing_files fs st ++
        newRecords fs cfg ((check_existing_files fs st).map
          Record.file_location) := check_new_files_eq fs cfg _
  rw [hdiff] at hr
  rcases List.mem_append.1 hr with hr1 | hr2
  · rw [check_existing_files_eq] at hr1
    obtain ⟨x, hx, rfl⟩ := List.mem_map.1 hr1
    rw [foldE_char, lastMatch_self hu hx] at hm ⊢
    cases hh : hash_file fs x.file_location with
    | none => simp [applyExisting, hh] at hm
    | some h =>
      have hhb : (h != x.original_hash) = false := by
        simpa [applyExisting, hh] using hm
      have heq : h = x.original_hash := by simpa using hhb
      obtain ⟨bytes, _, rfl⟩ := Option.map_eq_some'.1 hh
      constructor
      · simp [applyExisting, hh, heq]
      · simp only [applyExisting, if_pos rfl, hh]
        simpa using sha1hex_ne_deleted bytes
  · have := (newRecords_spec hr2).2.2.2.2
    rw [hm] at this
    exact absurd this (by decide)

/-- Claim C4: a record left with `is_modified = 0` by a `diff` pass keeps
its `original_hash` through `update_database`: the record at its location
still has the same baseline afterwards, and every record at that location
does. -/
theorem claim_C4 (fs : Filesys) (cfg : MonitorConfig) (st : Store)
    (hu : UniqueLocs st) (r : Record) (hr : r ∈ diff fs cfg st)
    (hm : r.is_modified = false) :
    (∃ r' ∈ update_database (diff fs cfg st),
      r'.file_location = r.file_location ∧
      r'.original_hash = r.original_hash) ∧
    (∀ r' ∈ update_database (diff fs cfg st),
      r'.file_location = r.file_location →
      r'.original_hash = r.original_hash) := by
  have hud : UniqueLocs (diff fs cfg st) :=
    uniq_check_new fs cfg _ (uniq_check_existing fs st hu)
  obtain ⟨heq, hne⟩ := diff_unmodified hu hr hm
  constructor
  · refine ⟨foldU (diff fs cfg st) r, ?_, foldU_loc _ r, ?_⟩
    · rw [update_database_eq]
      exact List.mem_map_of_mem _
        (List.mem_filter.2 ⟨hr, by simpa using hne⟩)
    · rw [foldU_char, lastMatch_self hud hr]
      simp [applyUpdate, heq]
  · intro r' hr' hloc
    rw [update_database_eq] at hr'
    obtain ⟨q, hq, rfl⟩ := List.mem_map.1 hr'
    have hqd : q ∈ diff fs cfg st := (List.mem_filter.1 hq).1
    have hqr : q = r := uniqueLocs_eq_of_mem hud hqd hr
      (by rw [← foldU_loc (diff fs cfg st) q]; exact hloc)
    subst hqr
    rw [foldU_char, lastMatch_self hud hqd]
    simp [applyUpdate, heq]

/-- Store for the C4 witness: `/a` carries the SHA-1 of `abc` as baseline. -/
def stC4 : Store := [Record.mk "/a" (sha1hex [97, 98, 99]) "n" true]

/-- The record produced for `/a` by a diff pass when its content still
hashes to its baseline. -/
def rC4 : Record :=
  Record.mk "/a" (sha1hex [97, 98, 99]) (sha1hex [97, 98, 99]) false

set_option maxRecDepth 100000 in
/-- Witness for C4: the unmodified record for `/a` keeps its baseline
through `update_database`. -/
theorem claim_C4_witness :
    ∃ r' ∈ update_database (diff fsAbc cfgEmpty stC4),
      r'.file_location = rC4.file_location ∧
      r'.original_hash = rC4.original_hash :=
  (claim_C4 fsAbc cfgEmpty stC4 (by unfold UniqueLocs; decide) rC4
    (by decide) rfl).1
